import Mathlib

/-!
Verification of the banded LDLT solver.

The C++ sources (SLAUSolverLDLT.cpp, LDLT.cpp) are embedded shallowly:

* `float`/`double` values are modelled as exact rationals (`ℚ`);
* every raw array access `v[i]` is modelled by a bounds-checked read or
  write returning `Option` (an index outside the container is undefined
  behaviour in the C++ source, modelled here as `none`);
* every `for` loop is modelled as a structural recursion that performs
  the loop body `t` times (`iter t` is the state after the first `t`
  iterations), so that all definitions are executable and decidable.

Integer index expressions (such as `m - i + j`, which can be negative in
the source) are computed in `ℤ`, exactly as the C++ `int` arithmetic does
for the magnitudes that occur here.
-/

/-- Vectors of the solver (`std::vector<floatingPointType>`). -/
abbrev Vec := List ℚ

/-- Band matrices of the solver (`std::vector<std::vector<floatingPointType>>`). -/
abbrev Mat := List (List ℚ)

/-- Bounds-checked read `v[i]` of a C++ vector with an `int` index.
Reading outside `[0, v.size())` is undefined behaviour, modelled as `none`. -/
def vget (v : Vec) (i : ℤ) : Option ℚ :=
  if h : 0 ≤ i ∧ i.toNat < v.length then some (v.get ⟨i.toNat, h.2⟩) else none

/-- Bounds-checked write `v[i] = x`. -/
def vset (v : Vec) (i : ℤ) (x : ℚ) : Option Vec :=
  if 0 ≤ i ∧ i.toNat < v.length then some (v.set i.toNat x) else none

/-- Bounds-checked read `A[r][c]` of a row-of-rows matrix. -/
def mget (A : Mat) (r c : ℤ) : Option ℚ :=
  if h : 0 ≤ r ∧ r.toNat < A.length then vget (A.get ⟨r.toNat, h.2⟩) c else none

/-- Bounds-checked write `A[r][c] = x`. -/
def mset (A : Mat) (r c : ℤ) (x : ℚ) : Option Mat :=
  if h : 0 ≤ r ∧ r.toNat < A.length then
    (vset (A.get ⟨r.toNat, h.2⟩) c x).map (fun row => A.set r.toNat row)
  else none

/-- Total read used to state properties: `v.getD i 0`. -/
def vD (v : Vec) (i : ℕ) : ℚ := v.getD i 0

/-- Total read of a band cell used to state properties: row `r`, storage
slot `c`, with `0` for any out-of-range index. -/
def alD (A : Mat) (r : ℕ) (c : ℤ) : ℚ :=
  if 0 ≤ c then (A.getD r []).getD c.toNat 0 else 0

/-- The state of a `SLAUSolverLDLT` object: order `n`, half-bandwidth `m`,
band `matrixAL` (shape `n × m`), diagonal `diagD` and vector `vectorF`. -/
structure SLAUStore where
  n : ℕ
  m : ℕ
  matrixAL : Mat
  diagD : Vec
  vectorF : Vec
deriving DecidableEq, Repr

/-- Well-formedness of a store: the containers have the sizes that
`SLAUSolverLDLT::initialize` allocates. -/
def WF (s : SLAUStore) : Prop :=
  s.matrixAL.length = s.n ∧ (∀ r, r < s.n → (s.matrixAL.getD r []).length = s.m) ∧
    s.diagD.length = s.n ∧ s.vectorF.length = s.n

instance (s : SLAUStore) : Decidable (WF s) := by
  unfold WF; infer_instance

/-- Model of `SLAUSolverLDLT::initialize(a, b)`: sets `n = a`, `m = b` and
zero-fills `matrixAL` (`n × m`), `diagD` and `vectorF` (length `n`).
A negative size makes the `std::vector` allocation throw
(`size_t` wrap-around), modelled as `none`; the code performs no other
validation of the dimensions. -/
def initStore (a b : ℤ) : Option SLAUStore :=
  if 0 ≤ a ∧ 0 ≤ b then
    some { n := a.toNat, m := b.toNat,
           matrixAL := List.replicate a.toNat (List.replicate b.toNat 0),
           diagD := List.replicate a.toNat 0,
           vectorF := List.replicate a.toNat 0 }
  else none

/-!  ## Decomposition (`SLAUSolverLDLT::performLDLtDecomposition`)

The C++ loop structure, for `i = 0 .. n-1`:

* `sumD` is accumulated over `j < i` of the single merged `j`-loop
  `j = max(0, i-m) .. min(i+m, n-1)`;
* at `j = i` the code executes `diagD[i] -= sumD`;
* for `j > i` the code computes `sumL` with the cumulatively updated
  indices `indexIK += k`, `indexJK += k` (starting from `m - i` and
  `m - j`) and stores `matrixAL[j][m-j+i] = (matrixAL[j][m-j+i] - sumL) / diagD[i]`.
-/

/-- One iteration of the `k`-loop of the decomposition: updates the
cumulative indices `indexIK`, `indexJK` by `+ k` and accumulates
`matrixAL[j][indexJK] * matrixAL[i][indexIK] * diagD[k]`. -/
def sumLStep (AL : Mat) (D : Vec) (i j k : ℕ) (st : ℤ × ℤ × ℚ) :
    Option (ℤ × ℤ × ℚ) :=
  (mget AL j (st.2.1 + (k : ℤ))).bind fun aJK =>
  (mget AL i (st.1 + (k : ℤ))).bind fun aIK =>
  (vget D k).bind fun dk =>
  some (st.1 + (k : ℤ), st.2.1 + (k : ℤ), st.2.2 + aJK * aIK * dk)

/-- The first `t` iterations of the `k`-loop (`k = max(0, i-m) + 0, 1, …`),
starting from `indexIK = m - i`, `indexJK = m - j`, `sumL = 0`. -/
def sumLIter (AL : Mat) (D : Vec) (m i j : ℕ) : ℕ → Option (ℤ × ℤ × ℚ)
  | 0 => some ((m : ℤ) - (i : ℤ), (m : ℤ) - (j : ℤ), 0)
  | (t+1) => (sumLIter AL D m i j t).bind (sumLStep AL D i j ((i - m) + t))

/-- The full `k`-loop: `k` runs over `[max(0, i-m), i)`, i.e. `i - (i - m)`
iterations (ℕ-subtraction realizes the `max`). -/
def sumLFull (AL : Mat) (D : Vec) (m i j : ℕ) : Option ℚ :=
  (sumLIter AL D m i j (i - (i - m))).map (fun st => st.2.2)

/-- The body of the merged `j`-loop of the decomposition at outer index `i`;
the loop state is `(matrixAL, diagD, sumD)`. -/
def jStep (m i : ℕ) (st : Mat × Vec × ℚ) (j : ℕ) : Option (Mat × Vec × ℚ) :=
  if j < i then
    (mget st.1 i ((m : ℤ) - (i : ℤ) + (j : ℤ))).bind fun aij =>
    (vget st.2.1 j).bind fun dj =>
    some (st.1, st.2.1, st.2.2 + aij * aij * dj)
  else if j = i then
    (vget st.2.1 i).bind fun di =>
    (vset st.2.1 i (di - st.2.2)).bind fun D2 =>
    some (st.1, D2, st.2.2)
  else
    (sumLFull st.1 st.2.1 m i j).bind fun sL =>
    (vget st.2.1 i).bind fun di =>
    (mget st.1 j ((m : ℤ) - (j : ℤ) + (i : ℤ))).bind fun aji =>
    (mset st.1 j ((m : ℤ) - (j : ℤ) + (i : ℤ)) ((aji - sL) / di)).bind fun AL2 =>
    some (AL2, st.2.1, st.2.2)

/-- The first `t` iterations of the `j`-loop at outer index `i`
(`j = max(0, i-m) + 0, 1, …`), with `sumD` starting at `0`. -/
def jIter (m i : ℕ) (AL : Mat) (D : Vec) : ℕ → Option (Mat × Vec × ℚ)
  | 0 => some (AL, D, 0)
  | (t+1) => (jIter m i AL D t).bind fun st => jStep m i st ((i - m) + t)

/-- The first `t` iterations of the outer `i`-loop of the decomposition.
The `j`-loop at index `i` runs for `min(i+m, n-1) + 1 - max(0, i-m)`
iterations (its C++ condition is `j <= i + m && j < n`). -/
def decompIter (n m : ℕ) (AL : Mat) (D : Vec) : ℕ → Option (Mat × Vec)
  | 0 => some (AL, D)
  | (t+1) => (decompIter n m AL D t).bind fun st =>
      (jIter m t st.1 st.2 (min (t + m) (n - 1) + 1 - (t - m))).map fun st2 =>
        (st2.1, st2.2.1)

/-- Model of `SLAUSolverLDLT::performLDLtDecomposition`. -/
def performLDLtDecomposition (s : SLAUStore) : Option SLAUStore :=
  (decompIter s.n s.m s.matrixAL s.diagD s.n).map fun st =>
    { s with matrixAL := st.1, diagD := st.2 }

/-!  ## Substitution phases (`solveForward/Diagonal/BackwardSubstitution`)

All three phases of `SLAUSolverLDLT` operate in place on `vectorF`.
-/

/-- The first `t` iterations of the inner sum of the forward substitution
at row `i`: accumulates `matrixAL[i][m-i+j] * v[j]` for
`j = max(0, i-m) + 0, 1, …`.  (The same loop shape reads `vectorF` in
`SLAUSolverLDLT` and the buffer `y` in `LDLT`, so the read vector `v`
is a parameter.) -/
def fwdSumIter (AL : Mat) (v : Vec) (m i : ℕ) : ℕ → Option ℚ
  | 0 => some 0
  | (t+1) => (fwdSumIter AL v m i t).bind fun acc =>
      (mget AL i ((m : ℤ) - (i : ℤ) + (((i - m) + t : ℕ) : ℤ))).bind fun aij =>
      (vget v (((i - m) + t : ℕ) : ℤ)).bind fun vj =>
      some (acc + aij * vj)

/-- The full inner sum of the forward substitution at row `i`:
`j` runs over `[max(0, i-m), i)`. -/
def fwdSum (AL : Mat) (v : Vec) (m i : ℕ) : Option ℚ :=
  fwdSumIter AL v m i (i - (i - m))

/-- The first `t` iterations of the forward-substitution loop of
`SLAUSolverLDLT::solveForwardSubstitution`: `F[i] -= sum` for `i = 0, 1, …`. -/
def fwdIter (m : ℕ) (AL : Mat) (F0 : Vec) : ℕ → Option Vec
  | 0 => some F0
  | (t+1) => (fwdIter m AL F0 t).bind fun F =>
      (fwdSum AL F m t).bind fun sum =>
      (vget F t).bind fun fi =>
      vset F t (fi - sum)

/-- Model of `SLAUSolverLDLT::solveForwardSubstitution`. -/
def solveForwardSubstitution (s : SLAUStore) : Option SLAUStore :=
  (fwdIter s.m s.matrixAL s.vectorF s.n).map fun F => { s with vectorF := F }

/-- The first `t` iterations of `SLAUSolverLDLT::solveDiagonalSubstitution`:
`F[i] /= diagD[i]` for `i = 0, 1, …` (no zero check in the source). -/
def diagIter (D : Vec) (F0 : Vec) : ℕ → Option Vec
  | 0 => some F0
  | (t+1) => (diagIter D F0 t).bind fun F =>
      (vget F t).bind fun fi =>
      (vget D t).bind fun di =>
      vset F t (fi / di)

/-- Model of `SLAUSolverLDLT::solveDiagonalSubstitution`. -/
def solveDiagonalSubstitution (s : SLAUStore) : Option SLAUStore :=
  (diagIter s.diagD s.vectorF s.n).map fun F => { s with vectorF := F }

/-- The first `t` iterations of the inner sum of the backward substitution
at row `i`: accumulates `matrixAL[j][m-j+i] * v[j]` for `j = i+1, i+2, …`. -/
def bwdSumIter (AL : Mat) (v : Vec) (m i : ℕ) : ℕ → Option ℚ
  | 0 => some 0
  | (t+1) => (bwdSumIter AL v m i t).bind fun acc =>
      (mget AL (i + 1 + t) ((m : ℤ) - ((i + 1 + t : ℕ) : ℤ) + (i : ℤ))).bind fun aji =>
      (vget v (i + 1 + t)).bind fun vj =>
      some (acc + aji * vj)

/-- The full inner sum of the backward substitution at row `i`:
`j` runs over `(i, min(n-1, i+m)]`. -/
def bwdSum (AL : Mat) (v : Vec) (n m i : ℕ) : Option ℚ :=
  bwdSumIter AL v m i (min (n - 1) (i + m) - i)

/-- The first `t` iterations of the backward-substitution loop of
`SLAUSolverLDLT::solveBackwardSubstitution`: `F[i] -= sum` for
`i = n-1, n-2, …`. -/
def bwdIter (n m : ℕ) (AL : Mat) (F0 : Vec) : ℕ → Option Vec
  | 0 => some F0
  | (t+1) => (bwdIter n m AL F0 t).bind fun F =>
      (bwdSum AL F n m (n - (t + 1))).bind fun sum =>
      (vget F ((n - (t + 1) : ℕ) : ℤ)).bind fun fi =>
      vset F ((n - (t + 1) : ℕ) : ℤ) (fi - sum)

/-- Model of `SLAUSolverLDLT::solveBackwardSubstitution`. -/
def solveBackwardSubstitution (s : SLAUStore) : Option SLAUStore :=
  (bwdIter s.n s.m s.matrixAL s.vectorF s.n).map fun F => { s with vectorF := F }

/-- Model of `SLAUSolverLDLT::solveLinearSystem`: the three phases in
sequence, all in place on `vectorF`. -/
def solveLinearSystem (s : SLAUStore) : Option SLAUStore :=
  (solveForwardSubstitution s).bind fun s1 =>
  (solveDiagonalSubstitution s1).bind solveBackwardSubstitution

/-!  ## Reconstruction and banded multiply
(`printRestoredMatrix`, `printMultiplyMatrixToVector`) -/

/-- The entry `(i, j)` printed by `SLAUSolverLDLT::printRestoredMatrix`:
`diagD[i]` on the diagonal, the band cell `matrixAL[i][m-i+j]` for `j < i`
within the band, its symmetric mirror for `i < j` within the band, and a
literal `0` (with no array access) outside the band. -/
def restoredEntry (s : SLAUStore) (i j : ℕ) : Option ℚ :=
  if i = j then vget s.diagD i
  else if j < i ∧ i - j ≤ s.m then
    mget s.matrixAL i ((s.m : ℤ) - (i : ℤ) + (j : ℤ))
  else if i < j ∧ j - i ≤ s.m then
    mget s.matrixAL j ((s.m : ℤ) - (j : ℤ) + (i : ℤ))
  else some 0

/-- The first `t` iterations of the `j`-loop of
`SLAUSolverLDLT::printMultiplyMatrixToVector` for row `i`; the accumulator
starts at `diagD[i] * vectorF[i]` and the `i = j` case is skipped. -/
def mulRowIter (s : SLAUStore) (i : ℕ) : ℕ → Option ℚ
  | 0 => (vget s.diagD i).bind fun di =>
         (vget s.vectorF i).bind fun fi =>
         some (di * fi)
  | (t+1) => (mulRowIter s i t).bind fun acc =>
      if i = t then some acc
      else if t < i ∧ i - t ≤ s.m then
        (mget s.matrixAL i ((s.m : ℤ) - (i : ℤ) + (t : ℤ))).bind fun aij =>
        (vget s.vectorF t).bind fun fj =>
        some (acc + aij * fj)
      else if i < t ∧ t - i ≤ s.m then
        (mget s.matrixAL t ((s.m : ℤ) - (t : ℤ) + (i : ℤ))).bind fun aji =>
        (vget s.vectorF t).bind fun fj =>
        some (acc + aji * fj)
      else some acc

/-- Row `i` of the banded matrix-vector product computed by
`SLAUSolverLDLT::printMultiplyMatrixToVector` (the full `j`-loop). -/
def multiplyEntry (s : SLAUStore) (i : ℕ) : Option ℚ :=
  mulRowIter s i s.n

/-!  ## `SLAUSolverLDLT::HilbertBandMatrix` -/

/-- The first `t` iterations of the inner `j`-loop of `HilbertBandMatrix`
at row `i`: `matrixAL[i][m-i+j] = 1/(i+j+1)` for `j = max(0, i-m) + 0, 1, …`. -/
def hilbRowIter (m i : ℕ) (AL : Mat) : ℕ → Option Mat
  | 0 => some AL
  | (t+1) => (hilbRowIter m i AL t).bind fun AL2 =>
      mset AL2 i ((m : ℤ) - (i : ℤ) + (((i - m) + t : ℕ) : ℤ))
        (1 / ((i : ℚ) + (((i - m) + t : ℕ) : ℚ) + 1))

/-- The first `t` iterations of the outer loop of `HilbertBandMatrix`,
which runs for `i = 1, 2, …` (index `0` is never written):
`diagD[i] = 1/(2i+1)`, `vectorF[i] = i+1`, then the inner row fill. -/
def hilbIter (n m : ℕ) (AL : Mat) (D F : Vec) : ℕ → Option (Mat × Vec × Vec)
  | 0 => some (AL, D, F)
  | (t+1) => (hilbIter n m AL D F t).bind fun st =>
      (vset st.2.1 (1 + t) (1 / (2 * ((1 + t : ℕ) : ℚ) + 1))).bind fun D2 =>
      (vset st.2.2 (1 + t) (((1 + t : ℕ) : ℚ) + 1)).bind fun F2 =>
      (hilbRowIter m (1 + t) st.1 ((1 + t) - ((1 + t) - m))).map fun AL2 =>
        (AL2, D2, F2)

/-- Model of `SLAUSolverLDLT::HilbertBandMatrix` (the loop `i = 1 .. n-1`). -/
def HilbertBandMatrix (s : SLAUStore) : Option SLAUStore :=
  (hilbIter s.n s.m s.matrixAL s.diagD s.vectorF (s.n - 1)).map fun st =>
    { s with matrixAL := st.1, diagD := st.2.1, vectorF := st.2.2 }

/-!  ## The buffered variant (`LDLT::solveLinearSystem`, LDLT.cpp)

The `LDLT` class keeps the right-hand side `vectorF` untouched and writes
the three phases into the separate buffers `y`, `z`, `X`; its bandwidth
field is named `k`. -/

/-- The state of an `LDLT` object. -/
structure LDLTState where
  n : ℕ
  k : ℕ
  matrixAL : Mat
  diagD : Vec
  vectorF : Vec
  y : Vec
  z : Vec
  X : Vec
deriving DecidableEq, Repr

/-- Well-formedness of an `LDLT` state (the sizes its constructor allocates). -/
def WFL (st : LDLTState) : Prop :=
  st.matrixAL.length = st.n ∧ (∀ r, r < st.n → (st.matrixAL.getD r []).length = st.k) ∧
    st.diagD.length = st.n ∧ st.vectorF.length = st.n ∧
    st.y.length = st.n ∧ st.z.length = st.n ∧ st.X.length = st.n

instance (st : LDLTState) : Decidable (WFL st) := by
  unfold WFL; infer_instance

/-- The first `t` iterations of the forward phase of
`LDLT::solveLinearSystem`: `y[i] = vectorF[i] - sum` where the sum reads
the buffer `y` (same inner loop shape as the in-place variant). -/
def ldltYIter (kb : ℕ) (AL : Mat) (F y0 : Vec) : ℕ → Option Vec
  | 0 => some y0
  | (t+1) => (ldltYIter kb AL F y0 t).bind fun y =>
      (fwdSum AL y kb t).bind fun sum =>
      (vget F t).bind fun fi =>
      vset y t (fi - sum)

/-- The first `t` iterations of the diagonal phase of
`LDLT::solveLinearSystem`: `z[i] = y[i] / diagD[i]`. -/
def ldltZIter (D y z0 : Vec) : ℕ → Option Vec
  | 0 => some z0
  | (t+1) => (ldltZIter D y z0 t).bind fun z =>
      (vget y t).bind fun yi =>
      (vget D t).bind fun di =>
      vset z t (yi / di)

/-- The first `t` iterations of the backward phase of
`LDLT::solveLinearSystem` (`i = n-1, n-2, …`): `X[i] = z[i] - sum` where
the sum reads the buffer `X`. -/
def ldltXIter (n kb : ℕ) (AL : Mat) (z X0 : Vec) : ℕ → Option Vec
  | 0 => some X0
  | (t+1) => (ldltXIter n kb AL z X0 t).bind fun X =>
      (bwdSum AL X n kb (n - (t + 1))).bind fun sum =>
      (vget z ((n - (t + 1) : ℕ) : ℤ)).bind fun zi =>
      vset X ((n - (t + 1) : ℕ) : ℤ) (zi - sum)

/-- Model of `LDLT::solveLinearSystem` (LDLT.cpp): forward into `y`,
diagonal into `z`, backward into `X`; `vectorF` is only read. -/
def LDLT.solveLinearSystem (st : LDLTState) : Option LDLTState :=
  (ldltYIter st.k st.matrixAL st.vectorF st.y st.n).bind fun y2 =>
  (ldltZIter st.diagD y2 st.z st.n).bind fun z2 =>
  (ldltXIter st.n st.k st.matrixAL z2 st.X st.n).map fun X2 =>
  { st with y := y2, z := z2, X := X2 }

/-!  ## Factors read from a decomposed store -/

/-- The unit lower-triangular factor `L` read from a (decomposed) store:
`1` on the diagonal, the band cell `matrixAL[i][m-i+j]` for `0 < i - j ≤ m`,
and `0` elsewhere. -/
def matL (s : SLAUStore) (i j : ℕ) : ℚ :=
  if i = j then 1
  else if j < i ∧ i - j ≤ s.m then alD s.matrixAL i ((s.m : ℤ) - (i : ℤ) + (j : ℤ))
  else 0

/-- Entry `(i, j)` of the product `L · D · Lᵗ` of the factors stored in `s`:
`∑ k, L(i,k) · D(k,k) · L(j,k)`. -/
def matLDLt (s : SLAUStore) (i j : ℕ) : ℚ :=
  ∑ k in Finset.range s.n, matL s i k * vD s.diagD k * matL s j k

/-!  ## Concrete stores used below -/

/-- The spec's concrete scenario: `n = 3`, `m = 1`, `A = diag(4,5,6)` with
`A(1,0) = 2`, `A(2,1) = 3`, `f = (1,2,3)`. -/
def scenarioStore : SLAUStore :=
  { n := 3, m := 1, matrixAL := [[0], [2], [3]], diagD := [4, 5, 6], vectorF := [1, 2, 3] }

/-- A banded store with `n = 3`, `m = 1` and nonzero pivots
(`A = tridiag` with diagonal `2` and sub-diagonal `1`). -/
def bandStore31 : SLAUStore :=
  { n := 3, m := 1, matrixAL := [[0], [1], [1]], diagD := [2, 2, 2], vectorF := [1, 1, 1] }

/-- A banded store with `n = 4`, `m = 1` and nonzero pivots. -/
def bandStore41 : SLAUStore :=
  { n := 4, m := 1, matrixAL := [[0], [1], [1], [1]], diagD := [2, 2, 2, 2],
    vectorF := [1, 1, 1, 1] }

/-- A store whose decomposition produces the zero pivot `D(0,0) = 0`
(`n = 1`, `m = 0`, `A(0,0) = 0`). -/
def zeroPivotStore : SLAUStore :=
  { n := 1, m := 0, matrixAL := [[]], diagD := [0], vectorF := [5] }

/-- A trivial decomposed store (`n = 1`, `m = 0`, `D = (2)`, `f = (4)`). -/
def tinyStore : SLAUStore :=
  { n := 1, m := 0, matrixAL := [[]], diagD := [2], vectorF := [4] }

/-- The store of `bandStore2` before decomposition:
`n = 2`, `m = 1`, `A = [[4, 2], [2, 5]]`, `f = (4, 2)`. -/
def bandStore2 : SLAUStore :=
  { n := 2, m := 1, matrixAL := [[0], [2]], diagD := [4, 5], vectorF := [4, 2] }

/-- The decomposition of `bandStore2`: `L(1,0) = 1/2`, `D = (4, 4)`. -/
def decompStore2 : SLAUStore :=
  { n := 2, m := 1, matrixAL := [[0], [1/2]], diagD := [4, 4], vectorF := [4, 2] }

/-- The result of the in-place solve on `decompStore2` (the solution
`x = (1, 0)` overwrites `vectorF`). -/
def slauSolved2 : SLAUStore :=
  { n := 2, m := 1, matrixAL := [[0], [1/2]], diagD := [4, 4], vectorF := [1, 0] }

/-- An `LDLT` state holding the same decomposed system as `decompStore2`. -/
def ldltState2 : LDLTState :=
  { n := 2, k := 1, matrixAL := [[0], [1/2]], diagD := [4, 4], vectorF := [4, 2],
    y := [0, 0], z := [0, 0], X := [0, 0] }

/-- The result of the buffered solve on `ldltState2`
(`y = (4, 0)`, `z = (1, 0)`, `X = (1, 0)`; `vectorF` untouched). -/
def ldltSolved2 : LDLTState :=
  { n := 2, k := 1, matrixAL := [[0], [1/2]], diagD := [4, 4], vectorF := [4, 2],
    y := [4, 0], z := [1, 0], X := [1, 0] }

/-!  ## Basic access lemmas -/

theorem vget_int (v : Vec) (c : ℤ) (hc0 : 0 ≤ c) (hc : c.toNat < v.length) :
    vget v c = some (v.getD c.toNat 0) := by
  unfold vget
  rw [dif_pos ⟨hc0, hc⟩]
  rw [List.getD_eq_getElem?_getD, List.getElem?_eq_getElem hc]
  simp [List.get_eq_getElem]

theorem vget_nat (v : Vec) (i : ℕ) (h : i < v.length) :
    vget v (i : ℤ) = some (vD v i) := by
  rw [vget_int v i (by exact_mod_cast Nat.zero_le i) (by simpa using h)]
  simp [vD]

theorem vset_int (v : Vec) (c : ℤ) (x : ℚ) (hc0 : 0 ≤ c) (hc : c.toNat < v.length) :
    vset v c x = some (v.set c.toNat x) := by
  unfold vset
  rw [if_pos ⟨hc0, hc⟩]

theorem vset_nat (v : Vec) (i : ℕ) (x : ℚ) (h : i < v.length) :
    vset v (i : ℤ) x = some (v.set i x) := by
  rw [vset_int v i x (by exact_mod_cast Nat.zero_le i) (by simpa using h)]
  simp

theorem mget_nat (A : Mat) (r : ℕ) (c : ℤ) (hr : r < A.length)
    (hc0 : 0 ≤ c) (hc : c.toNat < (A.getD r []).length) :
    mget A (r : ℤ) c = some (alD A r c) := by
  unfold mget alD
  have hr2 : ((r : ℤ)).toNat < A.length := by simpa using hr
  rw [dif_pos ⟨by exact_mod_cast Nat.zero_le r, hr2⟩]
  have hrow : A.get ⟨((r : ℤ)).toNat, hr2⟩ = A.getD r [] := by
    rw [List.getD_eq_getElem?_getD, List.getElem?_eq_getElem hr]
    simp [List.get_eq_getElem]
  rw [hrow, vget_int _ _ hc0 hc, if_pos hc0]

theorem mset_nat (A : Mat) (r : ℕ) (c : ℤ) (x : ℚ) (hr : r < A.length)
    (hc0 : 0 ≤ c) (hc : c.toNat < (A.getD r []).length) :
    mset A (r : ℤ) c x = some (A.set r ((A.getD r []).set c.toNat x)) := by
  unfold mset
  have hr2 : ((r : ℤ)).toNat < A.length := by simpa using hr
  rw [dif_pos ⟨by exact_mod_cast Nat.zero_le r, hr2⟩]
  have hrow : A.get ⟨((r : ℤ)).toNat, hr2⟩ = A.getD r [] := by
    rw [List.getD_eq_getElem?_getD, List.getElem?_eq_getElem hr]
    simp [List.get_eq_getElem]
  rw [hrow, vset_int _ _ _ hc0 hc]
  simp

theorem vD_set_self (v : Vec) (i : ℕ) (x : ℚ) (h : i < v.length) :
    vD (v.set i x) i = x := by
  simp [vD, List.getD_eq_getElem?_getD, List.getElem?_set_eq_of_lt x h]

theorem vD_set_ne (v : Vec) (i j : ℕ) (x : ℚ) (h : i ≠ j) :
    vD (v.set i x) j = vD v j := by
  simp [vD, List.getD_eq_getElem?_getD, List.getElem?_set_ne h]

theorem rowD_set_self (A : Mat) (r : ℕ) (row : List ℚ) (h : r < A.length) :
    (A.set r row).getD r [] = row := by
  simp [List.getD_eq_getElem?_getD, List.getElem?_set_eq_of_lt row h]

theorem rowD_set_ne (A : Mat) (r r' : ℕ) (row : List ℚ) (h : r ≠ r') :
    (A.set r row).getD r' [] = A.getD r' [] := by
  simp [List.getD_eq_getElem?_getD, List.getElem?_set_ne h]

theorem alD_set_ne (A : Mat) (r r' : ℕ) (row : List ℚ) (c : ℤ) (h : r ≠ r') :
    alD (A.set r row) r' c = alD A r' c := by
  unfold alD
  rw [rowD_set_ne A r r' row h]

theorem alD_set_self (A : Mat) (r : ℕ) (row : List ℚ) (c : ℤ) (h : r < A.length) :
    alD (A.set r row) r c = if 0 ≤ c then row.getD c.toNat 0 else 0 := by
  unfold alD
  rw [rowD_set_self A r row h]

/-!  ## Characterization of the substitution loops -/

theorem fwdSumIter_ok (AL : Mat) (v : Vec) (n m i : ℕ)
    (hA : AL.length = n) (hrow : ∀ r, r < n → (AL.getD r []).length = m)
    (hv : v.length = n) (hi : i < n) :
    ∀ t, t ≤ i - (i - m) →
      fwdSumIter AL v m i t = some (∑ r in Finset.range t,
        alD AL i ((m : ℤ) - (i : ℤ) + (((i - m) + r : ℕ) : ℤ)) * vD v ((i - m) + r)) := by
  intro t
  induction t with
  | zero => intro _; simp [fwdSumIter]
  | succ t ih =>
    intro ht
    have ht' : t ≤ i - (i - m) := Nat.le_of_succ_le ht
    rw [fwdSumIter, ih ht']
    have hj : (i - m) + t < n := by omega
    have hmg : mget AL i ((m : ℤ) - (i : ℤ) + (((i - m) + t : ℕ) : ℤ)) =
        some (alD AL i ((m : ℤ) - (i : ℤ) + (((i - m) + t : ℕ) : ℤ))) := by
      apply mget_nat AL i _ (hA ▸ hi)
      · omega
      · rw [hrow i hi]; omega
    rw [Option.some_bind, hmg, Option.some_bind,
      vget_nat v ((i - m) + t) (by omega), Option.some_bind,
      Finset.sum_range_succ]

theorem fwdSum_ok (AL : Mat) (v : Vec) (n m i : ℕ)
    (hA : AL.length = n) (hrow : ∀ r, r < n → (AL.getD r []).length = m)
    (hv : v.length = n) (hi : i < n) :
    fwdSum AL v m i = some (∑ j in Finset.Ico (i - m) i,
      alD AL i ((m : ℤ) - (i : ℤ) + (j : ℤ)) * vD v j) := by
  unfold fwdSum
  rw [fwdSumIter_ok AL v n m i hA hrow hv hi (i - (i - m)) le_rfl,
    Finset.sum_Ico_eq_sum_range]

theorem fwdIter_ok (n m : ℕ) (AL : Mat) (F0 : Vec)
    (hA : AL.length = n) (hrow : ∀ r, r < n → (AL.getD r []).length = m)
    (hF : F0.length = n) :
    ∀ t, t ≤ n → ∃ F, fwdIter m AL F0 t = some F ∧ F.length = n ∧
      (∀ j, t ≤ j → vD F j = vD F0 j) ∧
      (∀ i, i < t → vD F i = vD F0 i -
        ∑ j in Finset.Ico (i - m) i, alD AL i ((m : ℤ) - (i : ℤ) + (j : ℤ)) * vD F j) := by
  intro t
  induction t with
  | zero =>
    intro _
    exact ⟨F0, rfl, hF, fun _ _ => rfl, fun i hi => absurd hi (Nat.not_lt_zero i)⟩
  | succ t ih =>
    intro ht
    obtain ⟨F, hFeq, hlen, hstab, hchar⟩ := ih (Nat.le_of_succ_le ht)
    have htn : t < n := ht
    have hset : t < F.length := by omega
    refine ⟨F.set t (vD F t - ∑ j in Finset.Ico (t - m) t,
      alD AL t ((m : ℤ) - (t : ℤ) + (j : ℤ)) * vD F j), ?_, ?_, ?_, ?_⟩
    · rw [fwdIter, hFeq, Option.some_bind,
        fwdSum_ok AL F n m t hA hrow hlen htn, Option.some_bind,
        vget_nat F t hset, Option.some_bind, vset_nat F t _ hset]
    · rw [List.length_set]; exact hlen
    · intro j hj
      rw [vD_set_ne F t j _ (by omega), hstab j (by omega)]
    · intro i hi
      rcases Nat.lt_succ_iff_lt_or_eq.mp hi with hlt | heq
      · rw [vD_set_ne F t i _ (by omega), hchar i hlt]
        congr 1
        refine Finset.sum_congr rfl (fun j hj => ?_)
        have hjlt : j < i := (Finset.mem_Ico.mp hj).2
        rw [vD_set_ne F t j _ (by omega)]
      · subst heq
        rw [vD_set_self F i _ hset, hstab i le_rfl]
        congr 1
        refine Finset.sum_congr rfl (fun j hj => ?_)
        have hjlt : j < i := (Finset.mem_Ico.mp hj).2
        rw [vD_set_ne F i j _ (by omega)]

theorem diagIter_ok (n : ℕ) (D F0 : Vec) (hD : D.length = n) (hF : F0.length = n) :
    ∀ t, t ≤ n → ∃ F, diagIter D F0 t = some F ∧ F.length = n ∧
      (∀ j, t ≤ j → vD F j = vD F0 j) ∧
      (∀ i, i < t → vD F i = vD F0 i / vD D i) := by
  intro t
  induction t with
  | zero =>
    intro _
    exact ⟨F0, rfl, hF, fun _ _ => rfl, fun i hi => absurd hi (Nat.not_lt_zero i)⟩
  | succ t ih =>
    intro ht
    obtain ⟨F, hFeq, hlen, hstab, hchar⟩ := ih (Nat.le_of_succ_le ht)
    have htn : t < n := ht
    have hset : t < F.length := by omega
    refine ⟨F.set t (vD F t / vD D t), ?_, ?_, ?_, ?_⟩
    · rw [diagIter, hFeq, Option.some_bind, vget_nat F t hset, Option.some_bind,
        vget_nat D t (by omega), Option.some_bind, vset_nat F t _ hset]
    · rw [List.length_set]; exact hlen
    · intro j hj
      rw [vD_set_ne F t j _ (by omega), hstab j (by omega)]
    · intro i hi
      rcases Nat.lt_succ_iff_lt_or_eq.mp hi with hlt | heq
      · rw [vD_set_ne F t i _ (by omega), hchar i hlt]
      · subst heq
        rw [vD_set_self F i _ hset, hstab i le_rfl]

theorem bwdSumIter_ok (AL : Mat) (v : Vec) (n m i : ℕ)
    (hA : AL.length = n) (hrow : ∀ r, r < n → (AL.getD r []).length = m)
    (hv : v.length = n) (hi : i < n) :
    ∀ t, t ≤ min (n - 1) (i + m) - i →
      bwdSumIter AL v m i t = some (∑ r in Finset.range t,
        alD AL (i + 1 + r) ((m : ℤ) - ((i + 1 + r : ℕ) : ℤ) + (i : ℤ)) * vD v (i + 1 + r)) := by
  intro t
  induction t with
  | zero => intro _; simp [bwdSumIter]
  | succ t ih =>
    intro ht
    have ht' : t ≤ min (n - 1) (i + m) - i := Nat.le_of_succ_le ht
    have hcast : ((i : ℤ) + 1 + (t : ℤ)) = (((i + 1 + t : ℕ)) : ℤ) := by push_cast; ring
    rw [bwdSumIter, ih ht', Option.some_bind, hcast]
    have hj : i + 1 + t < n := by omega
    rw [mget_nat AL (i + 1 + t) ((m : ℤ) - ((i + 1 + t : ℕ) : ℤ) + (i : ℤ))
        (hA ▸ hj) (by push_cast; omega) (by rw [hrow (i + 1 + t) hj]; push_cast; omega),
      Option.some_bind, vget_nat v (i + 1 + t) (by omega), Option.some_bind,
      Finset.sum_range_succ]

theorem bwdSum_ok (AL : Mat) (v : Vec) (n m i : ℕ)
    (hA : AL.length = n) (hrow : ∀ r, r < n → (AL.getD r []).length = m)
    (hv : v.length = n) (hi : i < n) :
    bwdSum AL v n m i = some (∑ j in Finset.Ioc i (min (n - 1) (i + m)),
      alD AL j ((m : ℤ) - (j : ℤ) + (i : ℤ)) * vD v j) := by
  unfold bwdSum
  rw [bwdSumIter_ok AL v n m i hA hrow hv hi _ le_rfl, ← Nat.Ico_succ_succ,
    Finset.sum_Ico_eq_sum_range,
    show (min (n - 1) (i + m) + 1) - (i + 1) = min (n - 1) (i + m) - i from by omega]

theorem bwdIter_ok (n m : ℕ) (AL : Mat) (F0 : Vec)
    (hA : AL.length = n) (hrow : ∀ r, r < n → (AL.getD r []).length = m)
    (hF : F0.length = n) :
    ∀ t, t ≤ n → ∃ F, bwdIter n m AL F0 t = some F ∧ F.length = n ∧
      (∀ j, j < n - t → vD F j = vD F0 j) ∧
      (∀ i, n - t ≤ i → i < n → vD F i = vD F0 i -
        ∑ j in Finset.Ioc i (min (n - 1) (i + m)),
          alD AL j ((m : ℤ) - (j : ℤ) + (i : ℤ)) * vD F j) := by
  intro t
  induction t with
  | zero =>
    intro _
    exact ⟨F0, rfl, hF, fun _ _ => rfl, fun i hi hi2 => by omega⟩
  | succ t ih =>
    intro ht
    obtain ⟨F, hFeq, hlen, hstab, hchar⟩ := ih (Nat.le_of_succ_le ht)
    have hi0 : n - (t + 1) < n := by omega
    have hset : n - (t + 1) < F.length := by omega
    refine ⟨F.set (n - (t + 1)) (vD F (n - (t + 1)) -
      ∑ j in Finset.Ioc (n - (t + 1)) (min (n - 1) (n - (t + 1) + m)),
        alD AL j ((m : ℤ) - (j : ℤ) + ((n - (t + 1) : ℕ) : ℤ)) * vD F j), ?_, ?_, ?_, ?_⟩
    · rw [bwdIter, hFeq, Option.some_bind,
        bwdSum_ok AL F n m (n - (t + 1)) hA hrow hlen hi0, Option.some_bind,
        vget_nat F (n - (t + 1)) hset, Option.some_bind, vset_nat F (n - (t + 1)) _ hset]
    · rw [List.length_set]; exact hlen
    · intro j hj
      rw [vD_set_ne F (n - (t + 1)) j _ (by omega), hstab j (by omega)]
    · intro i hi hi2
      rcases Nat.eq_or_lt_of_le hi with heq | hlt
    
      · rw [← heq]
        rw [vD_set_self F (n - (t + 1)) _ hset, hstab (n - (t + 1)) (by omega)]
        congr 1
        refine Finset.sum_congr rfl (fun j hj => ?_)
        have hjgt : n - (t + 1) < j := (Finset.mem_Ioc.mp hj).1
        rw [vD_set_ne F (n - (t + 1)) j _ (by omega)]
      · have hge : n - t ≤ i := by omega
        rw [vD_set_ne F (n - (t + 1)) i _ (by omega), hchar i hge hi2]
        congr 1
        refine Finset.sum_congr rfl (fun j hj => ?_)
        have hjgt : i < j := (Finset.mem_Ioc.mp hj).1
        rw [vD_set_ne F (n - (t + 1)) j _ (by omega)]

theorem ldltYIter_ok (n kb : ℕ) (AL : Mat) (F y0 : Vec)
    (hA : AL.length = n) (hrow : ∀ r, r < n → (AL.getD r []).length = kb)
    (hF : F.length = n) (hy : y0.length = n) :
    ∀ t, t ≤ n → ∃ y, ldltYIter kb AL F y0 t = some y ∧ y.length = n ∧
      (∀ j, t ≤ j → vD y j = vD y0 j) ∧
      (∀ i, i < t → vD y i = vD F i -
        ∑ j in Finset.Ico (i - kb) i, alD AL i ((kb : ℤ) - (i : ℤ) + (j : ℤ)) * vD y j) := by
  intro t
  induction t with
  | zero =>
    intro _
    exact ⟨y0, rfl, hy, fun _ _ => rfl, fun i hi => absurd hi (Nat.not_lt_zero i)⟩
  | succ t ih =>
    intro ht
    obtain ⟨y, hyeq, hlen, hstab, hchar⟩ := ih (Nat.le_of_succ_le ht)
    have htn : t < n := ht
    have hset : t < y.length := by omega
    refine ⟨y.set t (vD F t - ∑ j in Finset.Ico (t - kb) t,
      alD AL t ((kb : ℤ) - (t : ℤ) + (j : ℤ)) * vD y j), ?_, ?_, ?_, ?_⟩
    · rw [ldltYIter, hyeq, Option.some_bind,
        fwdSum_ok AL y n kb t hA hrow hlen htn, Option.some_bind,
        vget_nat F t (by omega), Option.some_bind, vset_nat y t _ hset]
    · rw [List.length_set]; exact hlen
    · intro j hj
      rw [vD_set_ne y t j _ (by omega), hstab j (by omega)]
    · intro i hi
      rcases Nat.lt_succ_iff_lt_or_eq.mp hi with hlt | heq
      · rw [vD_set_ne y t i _ (by omega), hchar i hlt]
        congr 1
        refine Finset.sum_congr rfl (fun j hj => ?_)
        have hjlt : j < i := (Finset.mem_Ico.mp hj).2
        rw [vD_set_ne y t j _ (by omega)]
      · subst heq
        rw [vD_set_self y i _ hset]
        congr 1
        refine Finset.sum_congr rfl (fun j hj => ?_)
        have hjlt : j < i := (Finset.mem_Ico.mp hj).2
        rw [vD_set_ne y i j _ (by omega)]

theorem ldltZIter_ok (n : ℕ) (D y z0 : Vec)
    (hD : D.length = n) (hy : y.length = n) (hz : z0.length = n) :
    ∀ t, t ≤ n → ∃ z, ldltZIter D y z0 t = some z ∧ z.length = n ∧
      (∀ j, t ≤ j → vD z j = vD z0 j) ∧
      (∀ i, i < t → vD z i = vD y i / vD D i) := by
  intro t
  induction t with
  | zero =>
    intro _
    exact ⟨z0, rfl, hz, fun _ _ => rfl, fun i hi => absurd hi (Nat.not_lt_zero i)⟩
  | succ t ih =>
    intro ht
    obtain ⟨z, hzeq, hlen, hstab, hchar⟩ := ih (Nat.le_of_succ_le ht)
    have htn : t < n := ht
    have hset : t < z.length := by omega
    refine ⟨z.set t (vD y t / vD D t), ?_, ?_, ?_, ?_⟩
    · rw [ldltZIter, hzeq, Option.some_bind, vget_nat y t (by omega), Option.some_bind,
        vget_nat D t (by omega), Option.some_bind, vset_nat z t _ hset]
    · rw [List.length_set]; exact hlen
    · intro j hj
      rw [vD_set_ne z t j _ (by omega), hstab j (by omega)]
    · intro i hi
      rcases Nat.lt_succ_iff_lt_or_eq.mp hi with hlt | heq
      · rw [vD_set_ne z t i _ (by omega), hchar i hlt]
      · subst heq
        rw [vD_set_self z i _ hset]

theorem ldltXIter_ok (n kb : ℕ) (AL : Mat) (z X0 : Vec)
    (hA : AL.length = n) (hrow : ∀ r, r < n → (AL.getD r []).length = kb)
    (hz : z.length = n) (hX : X0.length = n) :
    ∀ t, t ≤ n → ∃ X, ldltXIter n kb AL z X0 t = some X ∧ X.length = n ∧
      (∀ j, j < n - t → vD X j = vD X0 j) ∧
      (∀ i, n - t ≤ i → i < n → vD X i = vD z i -
        ∑ j in Finset.Ioc i (min (n - 1) (i + kb)),
          alD AL j ((kb : ℤ) - (j : ℤ) + (i : ℤ)) * vD X j) := by
  intro t
  induction t with
  | zero =>
    intro _
    exact ⟨X0, rfl, hX, fun _ _ => rfl, fun i hi hi2 => by omega⟩
  | succ t ih =>
    intro ht
    obtain ⟨X, hXeq, hlen, hstab, hchar⟩ := ih (Nat.le_of_succ_le ht)
    have hi0 : n - (t + 1) < n := by omega
    have hset : n - (t + 1) < X.length := by omega
    refine ⟨X.set (n - (t + 1)) (vD z (n - (t + 1)) -
      ∑ j in Finset.Ioc (n - (t + 1)) (min (n - 1) (n - (t + 1) + kb)),
        alD AL j ((kb : ℤ) - (j : ℤ) + ((n - (t + 1) : ℕ) : ℤ)) * vD X j), ?_, ?_, ?_, ?_⟩
    · rw [ldltXIter, hXeq, Option.some_bind,
        bwdSum_ok AL X n kb (n - (t + 1)) hA hrow hlen hi0, Option.some_bind,
        vget_nat z (n - (t + 1)) (by omega), Option.some_bind,
        vset_nat X (n - (t + 1)) _ hset]
    · rw [List.length_set]; exact hlen
    · intro j hj
      rw [vD_set_ne X (n - (t + 1)) j _ (by omega), hstab j (by omega)]
    · intro i hi hi2
      rcases Nat.eq_or_lt_of_le hi with heq | hlt
      · rw [← heq]
        rw [vD_set_self X (n - (t + 1)) _ hset]
        congr 1
        refine Finset.sum_congr rfl (fun j hj => ?_)
        have hjgt : n - (t + 1) < j := (Finset.mem_Ioc.mp hj).1
        rw [vD_set_ne X (n - (t + 1)) j _ (by omega)]
      · have hge : n - t ≤ i := by omega
        rw [vD_set_ne X (n - (t + 1)) i _ (by omega), hchar i hge hi2]
        congr 1
        refine Finset.sum_congr rfl (fun j hj => ?_)
        have hjgt : i < j := (Finset.mem_Ioc.mp hj).1
        rw [vD_set_ne X (n - (t + 1)) j _ (by omega)]

/-!  ## Shape preservation of the decomposition -/

theorem get_eq_getD (A : Mat) (r : ℕ) (h : r < A.length) : A.get ⟨r, h⟩ = A.getD r [] := by
  rw [List.getD_eq_getElem?_getD, List.getElem?_eq_getElem h]
  simp [List.get_eq_getElem]

theorem vset_shape (v : Vec) (i : ℤ) (x : ℚ) (v2 : Vec) (h : vset v i x = some v2) :
    v2.length = v.length := by
  unfold vset at h
  split at h
  · cases h; exact List.length_set v _ x
  · exact absurd h (by simp)

theorem mset_shape (A : Mat) (r c : ℤ) (x : ℚ) (A2 : Mat) (h : mset A r c x = some A2) :
    A2.length = A.length ∧ ∀ q, (A2.getD q []).length = (A.getD q []).length := by
  unfold mset at h
  split at h
  case isTrue hcond =>
    unfold vset at h
    split at h
    case isTrue hc2 =>
      rw [Option.map_some'] at h
      cases h
      constructor
      · exact List.length_set A _ _
      · intro q
        rcases eq_or_ne r.toNat q with heq | hne
        · subst heq
          rw [rowD_set_self A r.toNat _ hcond.2, List.length_set,
            get_eq_getD A r.toNat hcond.2]
        · rw [rowD_set_ne A r.toNat q _ hne]
    case isFalse => exact absurd h (by simp)
  case isFalse => exact absurd h (by simp)

theorem jStep_shape (m i : ℕ) (st st2 : Mat × Vec × ℚ) (j : ℕ)
    (h : jStep m i st j = some st2) :
    st2.1.length = st.1.length ∧
      (∀ q, (st2.1.getD q []).length = (st.1.getD q []).length) ∧
      st2.2.1.length = st.2.1.length := by
  unfold jStep at h
  split at h
  · rw [Option.bind_eq_some] at h
    obtain ⟨a, _, h⟩ := h
    rw [Option.bind_eq_some] at h
    obtain ⟨b, _, h⟩ := h
    cases h
    exact ⟨rfl, fun _ => rfl, rfl⟩
  · split at h
    · rw [Option.bind_eq_some] at h
      obtain ⟨a, _, h⟩ := h
      rw [Option.bind_eq_some] at h
      obtain ⟨D2, hD2, h⟩ := h
      cases h
      exact ⟨rfl, fun _ => rfl, vset_shape _ _ _ _ hD2⟩
    · rw [Option.bind_eq_some] at h
      obtain ⟨a, _, h⟩ := h
      rw [Option.bind_eq_some] at h
      obtain ⟨b, _, h⟩ := h
      rw [Option.bind_eq_some] at h
      obtain ⟨c, _, h⟩ := h
      rw [Option.bind_eq_some] at h
      obtain ⟨AL2, hAL2, h⟩ := h
      cases h
      obtain ⟨hlen, hrows⟩ := mset_shape _ _ _ _ _ hAL2
      exact ⟨hlen, hrows, rfl⟩

theorem jIter_shape (m i : ℕ) (AL : Mat) (D : Vec) :
    ∀ t st2, jIter m i AL D t = some st2 →
      st2.1.length = AL.length ∧
        (∀ q, (st2.1.getD q []).length = (AL.getD q []).length) ∧
        st2.2.1.length = D.length := by
  intro t
  induction t with
  | zero =>
    intro st2 h
    cases h
    exact ⟨rfl, fun _ => rfl, rfl⟩
  | succ t ih =>
    intro st2 h
    rw [jIter, Option.bind_eq_some] at h
    obtain ⟨st, hst, hstep⟩ := h
    obtain ⟨h1, h2, h3⟩ := ih st hst
    obtain ⟨g1, g2, g3⟩ := jStep_shape m i st st2 _ hstep
    exact ⟨g1.trans h1, fun q => (g2 q).trans (h2 q), g3.trans h3⟩

theorem decompIter_shape (n m : ℕ) (AL : Mat) (D : Vec) :
    ∀ t st2, decompIter n m AL D t = some st2 →
      st2.1.length = AL.length ∧
        (∀ q, (st2.1.getD q []).length = (AL.getD q []).length) ∧
        st2.2.length = D.length := by
  intro t
  induction t with
  | zero =>
    intro st2 h
    cases h
    exact ⟨rfl, fun _ => rfl, rfl⟩
  | succ t ih =>
    intro st2 h
    rw [decompIter, Option.bind_eq_some] at h
    obtain ⟨st, hst, hmap⟩ := h
    rw [Option.map_eq_some'] at hmap
    obtain ⟨st3, hst3, hmap⟩ := hmap
    obtain ⟨h1, h2, h3⟩ := ih st hst
    obtain ⟨g1, g2, g3⟩ := jIter_shape m t st.1 st.2 _ st3 hst3
    cases hmap
    exact ⟨g1.trans h1, fun q => (g2 q).trans (h2 q), g3.trans h3⟩

theorem decomp_WF (s s2 : SLAUStore) (h : WF s)
    (hd : performLDLtDecomposition s = some s2) :
    WF s2 ∧ s2.n = s.n ∧ s2.m = s.m ∧ s2.vectorF = s.vectorF := by
  obtain ⟨hA, hrow, hD, hF⟩ := h
  unfold performLDLtDecomposition at hd
  rw [Option.map_eq_some'] at hd
  obtain ⟨p, hp, hs2⟩ := hd
  obtain ⟨h1, h2, h3⟩ := decompIter_shape s.n s.m s.matrixAL s.diagD s.n p hp
  subst hs2
  refine ⟨⟨h1.trans hA, ?_, h3.trans hD, hF⟩, rfl, rfl, rfl⟩
  intro r hr
  rw [h2 r]
  exact hrow r hr

/-!  ## Uniqueness of the substitution recurrences -/

theorem ascRec_unique (n m : ℕ) (AL : Mat) (g u v : ℕ → ℚ)
    (hu : ∀ i, i < n → u i = g i -
      ∑ j in Finset.Ico (i - m) i, alD AL i ((m : ℤ) - (i : ℤ) + (j : ℤ)) * u j)
    (hv : ∀ i, i < n → v i = g i -
      ∑ j in Finset.Ico (i - m) i, alD AL i ((m : ℤ) - (i : ℤ) + (j : ℤ)) * v j) :
    ∀ i, i < n → u i = v i := by
  intro i
  induction i using Nat.strong_induction_on with
  | _ i ih =>
    intro hi
    rw [hu i hi, hv i hi]
    congr 1
    refine Finset.sum_congr rfl fun j hj => ?_
    have hjlt : j < i := (Finset.mem_Ico.mp hj).2
    rw [ih j hjlt (lt_trans hjlt hi)]

theorem descRec_unique (n m : ℕ) (AL : Mat) (g u v : ℕ → ℚ)
    (hu : ∀ i, i < n → u i = g i - ∑ j in Finset.Ioc i (min (n - 1) (i + m)),
      alD AL j ((m : ℤ) - (j : ℤ) + (i : ℤ)) * u j)
    (hv : ∀ i, i < n → v i = g i - ∑ j in Finset.Ioc i (min (n - 1) (i + m)),
      alD AL j ((m : ℤ) - (j : ℤ) + (i : ℤ)) * v j) :
    ∀ i, i < n → u i = v i := by
  have key : ∀ d i, i < n → n - i ≤ d → u i = v i := by
    intro d
    induction d with
    | zero => intro i hi hd; omega
    | succ d ih =>
      intro i hi hd
      rw [hu i hi, hv i hi]
      congr 1
      refine Finset.sum_congr rfl fun j hj => ?_
      have h1 : i < j := (Finset.mem_Ioc.mp hj).1
      have h2 : j ≤ min (n - 1) (i + m) := (Finset.mem_Ioc.mp hj).2
      have hjn : j < n := by omega
      rw [ih j hjn (by omega)]
  intro i hi
  exact key n i hi (by omega)

/-!  ## Row and column sums of the factor `L` -/

theorem sum_matL_row (s : SLAUStore) (w : ℕ → ℚ) (i : ℕ) (hi : i < s.n) :
    ∑ k in Finset.range s.n, matL s i k * w k =
      w i + ∑ k in Finset.Ico (i - s.m) i,
        alD s.matrixAL i ((s.m : ℤ) - (i : ℤ) + (k : ℤ)) * w k := by
  have hnot : i ∉ Finset.Ico (i - s.m) i := by simp
  have hsub : insert i (Finset.Ico (i - s.m) i) ⊆ Finset.range s.n := by
    intro k hk
    rcases Finset.mem_insert.mp hk with h | h
    · subst h; exact Finset.mem_range.mpr hi
    · exact Finset.mem_range.mpr (lt_trans (Finset.mem_Ico.mp h).2 hi)
  have hzero : ∀ k ∈ Finset.range s.n, k ∉ insert i (Finset.Ico (i - s.m) i) →
      matL s i k * w k = 0 := by
    intro k _ hnk
    rw [Finset.mem_insert, not_or, Finset.mem_Ico, not_and_or, not_le, not_lt] at hnk
    obtain ⟨hki, hk2⟩ := hnk
    unfold matL
    rcases hk2 with hlt | hge
    · rw [if_neg (fun h => hki h.symm), if_neg (fun hc => absurd hc.2 (by omega))]
      exact zero_mul _
    · rw [if_neg (fun h => hki h.symm), if_neg (fun hc => absurd hc.1 (by omega))]
      exact zero_mul _
  rw [← Finset.sum_subset hsub hzero, Finset.sum_insert hnot]
  have h1 : matL s i i = 1 := by unfold matL; rw [if_pos rfl]
  rw [h1, one_mul]
  congr 1
  refine Finset.sum_congr rfl fun k hk => ?_
  have hk1 : i - s.m ≤ k := (Finset.mem_Ico.mp hk).1
  have hk2 : k < i := (Finset.mem_Ico.mp hk).2
  unfold matL
  rw [if_neg (by omega), if_pos ⟨hk2, by omega⟩]

theorem sum_matL_col (s : SLAUStore) (w : ℕ → ℚ) (k : ℕ) (hk : k < s.n) :
    ∑ j in Finset.range s.n, matL s j k * w j =
      w k + ∑ j in Finset.Ioc k (min (s.n - 1) (k + s.m)),
        alD s.matrixAL j ((s.m : ℤ) - (j : ℤ) + (k : ℤ)) * w j := by
  have hnot : k ∉ Finset.Ioc k (min (s.n - 1) (k + s.m)) := by simp
  have hsub : insert k (Finset.Ioc k (min (s.n - 1) (k + s.m))) ⊆ Finset.range s.n := by
    intro j hj
    rcases Finset.mem_insert.mp hj with h | h
    · subst h; exact Finset.mem_range.mpr hk
    · have h2 := (Finset.mem_Ioc.mp h).2
      exact Finset.mem_range.mpr (by omega)
  have hzero : ∀ j ∈ Finset.range s.n, j ∉ insert k (Finset.Ioc k (min (s.n - 1) (k + s.m))) →
      matL s j k * w j = 0 := by
    intro j hj hnj
    have hjn : j < s.n := Finset.mem_range.mp hj
    rw [Finset.mem_insert, not_or, Finset.mem_Ioc, not_and_or, not_lt, not_le] at hnj
    obtain ⟨hjk, hj2⟩ := hnj
    unfold matL
    rcases hj2 with hle | hgt
    · rw [if_neg hjk, if_neg (fun hc => absurd hc.1 (by omega))]
      exact zero_mul _
    · rw [if_neg hjk, if_neg (fun hc => absurd hc.2 (by omega))]
      exact zero_mul _
  rw [← Finset.sum_subset hsub hzero, Finset.sum_insert hnot]
  have h1 : matL s k k = 1 := by unfold matL; rw [if_pos rfl]
  rw [h1, one_mul]
  congr 1
  refine Finset.sum_congr rfl fun j hj => ?_
  have hj1 : k < j := (Finset.mem_Ioc.mp hj).1
  have hj2 : j ≤ min (s.n - 1) (k + s.m) := (Finset.mem_Ioc.mp hj).2
  unfold matL
  rw [if_neg (by omega), if_pos ⟨hj1, by omega⟩]

/-!  ## The three-phase solve, characterized -/

theorem solveLinearSystem_ok (s : SLAUStore) (h : WF s) :
    ∃ F1 F2 F3,
      solveForwardSubstitution s = some { s with vectorF := F1 } ∧
      solveDiagonalSubstitution { s with vectorF := F1 } = some { s with vectorF := F2 } ∧
      solveBackwardSubstitution { s with vectorF := F2 } = some { s with vectorF := F3 } ∧
      solveLinearSystem s = some { s with vectorF := F3 } ∧
      F1.length = s.n ∧ F2.length = s.n ∧ F3.length = s.n ∧
      (∀ i, i < s.n → vD F1 i = vD s.vectorF i -
        ∑ j in Finset.Ico (i - s.m) i,
          alD s.matrixAL i ((s.m : ℤ) - (i : ℤ) + (j : ℤ)) * vD F1 j) ∧
      (∀ i, i < s.n → vD F2 i = vD F1 i / vD s.diagD i) ∧
      (∀ i, i < s.n → vD F3 i = vD F2 i -
        ∑ j in Finset.Ioc i (min (s.n - 1) (i + s.m)),
          alD s.matrixAL j ((s.m : ℤ) - (j : ℤ) + (i : ℤ)) * vD F3 j) := by
  obtain ⟨hA, hrow, hD, hF⟩ := h
  obtain ⟨F1, h1, hl1, _, hc1⟩ :=
    fwdIter_ok s.n s.m s.matrixAL s.vectorF hA hrow hF s.n le_rfl
  obtain ⟨F2, h2, hl2, _, hc2⟩ := diagIter_ok s.n s.diagD F1 hD hl1 s.n le_rfl
  obtain ⟨F3, h3, hl3, _, hc3⟩ :=
    bwdIter_ok s.n s.m s.matrixAL F2 hA hrow hl2 s.n le_rfl
  have e1 : solveForwardSubstitution s = some { s with vectorF := F1 } := by
    rw [solveForwardSubstitution, h1, Option.map_some']
  have e2 : solveDiagonalSubstitution { s with vectorF := F1 } =
      some { s with vectorF := F2 } := by
    rw [solveDiagonalSubstitution]
    show (diagIter s.diagD F1 s.n).map _ = _
    rw [h2, Option.map_some']
  have e3 : solveBackwardSubstitution { s with vectorF := F2 } =
      some { s with vectorF := F3 } := by
    rw [solveBackwardSubstitution]
    show (bwdIter s.n s.m s.matrixAL F2 s.n).map _ = _
    rw [h3, Option.map_some']
  refine ⟨F1, F2, F3, e1, e2, e3, ?_, hl1, hl2, hl3,
    fun i hi => hc1 i hi, fun i hi => hc2 i hi, fun i hi => hc3 i (by omega) hi⟩
  rw [solveLinearSystem, e1, Option.some_bind, e2, Option.some_bind, e3]

theorem ldltSolve_ok (st : LDLTState) (h : WFL st) :
    ∃ y z X, LDLT.solveLinearSystem st = some { st with y := y, z := z, X := X } ∧
      y.length = st.n ∧ z.length = st.n ∧ X.length = st.n ∧
      (∀ i, i < st.n → vD y i = vD st.vectorF i -
        ∑ j in Finset.Ico (i - st.k) i,
          alD st.matrixAL i ((st.k : ℤ) - (i : ℤ) + (j : ℤ)) * vD y j) ∧
      (∀ i, i < st.n → vD z i = vD y i / vD st.diagD i) ∧
      (∀ i, i < st.n → vD X i = vD z i -
        ∑ j in Finset.Ioc i (min (st.n - 1) (i + st.k)),
          alD st.matrixAL j ((st.k : ℤ) - (j : ℤ) + (i : ℤ)) * vD X j) := by
  obtain ⟨hA, hrow, hD, hF, hy0, hz0, hX0⟩ := h
  obtain ⟨y, h1, hl1, _, hc1⟩ :=
    ldltYIter_ok st.n st.k st.matrixAL st.vectorF st.y hA hrow hF hy0 st.n le_rfl
  obtain ⟨z, h2, hl2, _, hc2⟩ := ldltZIter_ok st.n st.diagD y st.z hD hl1 hz0 st.n le_rfl
  obtain ⟨X, h3, hl3, _, hc3⟩ :=
    ldltXIter_ok st.n st.k st.matrixAL z st.X hA hrow hl2 hX0 st.n le_rfl
  refine ⟨y, z, X, ?_, hl1, hl2, hl3,
    fun i hi => hc1 i hi, fun i hi => hc2 i hi, fun i hi => hc3 i (by omega) hi⟩
  rw [LDLT.solveLinearSystem, h1, Option.some_bind, h2, Option.some_bind, h3,
    Option.map_some']

/-!  ## Reconstruction and banded multiply, characterized -/

theorem restoredEntry_ok (s : SLAUStore) (h : WF s) (i j : ℕ)
    (hi : i < s.n) (hj : j < s.n) :
    restoredEntry s i j = some (
      if i = j then vD s.diagD i
      else if j < i ∧ i - j ≤ s.m then alD s.matrixAL i ((s.m : ℤ) - (i : ℤ) + (j : ℤ))
      else if i < j ∧ j - i ≤ s.m then alD s.matrixAL j ((s.m : ℤ) - (j : ℤ) + (i : ℤ))
      else 0) := by
  obtain ⟨hA, hrow, hD, hF⟩ := h
  unfold restoredEntry
  split_ifs with h1 h2 h3
  · exact vget_nat s.diagD i (by omega)
  · exact mget_nat s.matrixAL i _ (by omega) (by omega) (by rw [hrow i hi]; omega)
  · exact mget_nat s.matrixAL j _ (by omega) (by omega) (by rw [hrow j hj]; omega)
  · rfl

theorem mulRowIter_ok (s : SLAUStore) (h : WF s) (i : ℕ) (hi : i < s.n) :
    ∀ t, t ≤ s.n → mulRowIter s i t = some (vD s.diagD i * vD s.vectorF i +
      ∑ j in Finset.range t,
        (if j = i then 0 else ((restoredEntry s i j).getD 0) * vD s.vectorF j)) := by
  obtain ⟨hA, hrow, hD, hF⟩ := h
  intro t
  induction t with
  | zero =>
    intro _
    rw [mulRowIter, vget_nat s.diagD i (by omega), Option.some_bind,
      vget_nat s.vectorF i (by omega), Option.some_bind, Finset.sum_range_zero, add_zero]
  | succ t ih =>
    intro ht
    have htn : t < s.n := ht
    rw [mulRowIter, ih (by omega), Option.some_bind, Finset.sum_range_succ]
    by_cases h1 : i = t
    · rw [if_pos h1, if_pos (show t = i from h1.symm), add_zero]
    · rw [if_neg h1, if_neg (show ¬ t = i from fun he => h1 he.symm)]
      by_cases h2 : t < i ∧ i - t ≤ s.m
      · rw [if_pos h2]
        have hre : restoredEntry s i t =
            some (alD s.matrixAL i ((s.m : ℤ) - (i : ℤ) + (t : ℤ))) := by
          rw [restoredEntry_ok s ⟨hA, hrow, hD, hF⟩ i t hi htn, if_neg h1, if_pos h2]
        rw [mget_nat s.matrixAL i _ (by omega) (by omega) (by rw [hrow i hi]; omega),
          Option.some_bind, vget_nat s.vectorF t (by omega), Option.some_bind, hre]
        simp only [Option.getD_some, add_assoc]
      · rw [if_neg h2]
        by_cases h3 : i < t ∧ t - i ≤ s.m
        · rw [if_pos h3]
          have hre : restoredEntry s i t =
              some (alD s.matrixAL t ((s.m : ℤ) - (t : ℤ) + (i : ℤ))) := by
            rw [restoredEntry_ok s ⟨hA, hrow, hD, hF⟩ i t hi htn, if_neg h1, if_neg h2,
              if_pos h3]
          rw [mget_nat s.matrixAL t _ (by omega) (by omega) (by rw [hrow t htn]; omega),
            Option.some_bind, vget_nat s.vectorF t (by omega), Option.some_bind, hre]
          simp only [Option.getD_some, add_assoc]
        · rw [if_neg h3]
          have hre : restoredEntry s i t = some 0 := by
            rw [restoredEntry_ok s ⟨hA, hrow, hD, hF⟩ i t hi htn, if_neg h1, if_neg h2,
              if_neg h3]
          rw [hre]
          simp

/-!  ## `HilbertBandMatrix`, characterized at index 0 -/

theorem hilbRowIter_ok (n m i : ℕ) (AL : Mat)
    (hA : AL.length = n) (hrow : ∀ r, r < n → (AL.getD r []).length = m) (hi : i < n) :
    ∀ t, t ≤ i - (i - m) → ∃ AL2, hilbRowIter m i AL t = some AL2 ∧
      AL2.length = n ∧ (∀ r, r < n → (AL2.getD r []).length = m) ∧
      (∀ q, q ≠ i → AL2.getD q [] = AL.getD q []) := by
  intro t
  induction t with
  | zero => exact fun _ => ⟨AL, rfl, hA, hrow, fun _ _ => rfl⟩
  | succ t ih =>
    intro ht
    obtain ⟨AL2, heq, hlen, hrows, hpres⟩ := ih (by omega)
    refine ⟨AL2.set i ((AL2.getD i []).set
      ((m : ℤ) - (i : ℤ) + (((i - m) + t : ℕ) : ℤ)).toNat
      (1 / ((i : ℚ) + (((i - m) + t : ℕ) : ℚ) + 1))), ?_, ?_, ?_, ?_⟩
    · rw [hilbRowIter, heq, Option.some_bind,
        mset_nat AL2 i _ _ (by omega) (by omega) (by rw [hrows i hi]; omega)]
    · rw [List.length_set]; exact hlen
    · intro r hr
      rcases eq_or_ne i r with he | hne
      · subst he
        rw [rowD_set_self AL2 i _ (by omega), List.length_set]
        exact hrows i hi
      · rw [rowD_set_ne AL2 i r _ hne]
        exact hrows r hr
    · intro q hq
      rw [rowD_set_ne AL2 i q _ (fun he => hq he.symm)]
      exact hpres q hq

theorem hilbIter_ok (n m : ℕ) (AL : Mat) (D F : Vec)
    (hA : AL.length = n) (hrow : ∀ r, r < n → (AL.getD r []).length = m)
    (hD : D.length = n) (hF : F.length = n) :
    ∀ t, t ≤ n - 1 → ∃ AL2 D2 F2, hilbIter n m AL D F t = some (AL2, D2, F2) ∧
      AL2.length = n ∧ (∀ r, r < n → (AL2.getD r []).length = m) ∧
      D2.length = n ∧ F2.length = n ∧
      AL2.getD 0 [] = AL.getD 0 [] ∧ vD D2 0 = vD D 0 ∧ vD F2 0 = vD F 0 := by
  intro t
  induction t with
  | zero => exact fun _ => ⟨AL, D, F, rfl, hA, hrow, hD, hF, rfl, rfl, rfl⟩
  | succ t ih =>
    intro ht
    obtain ⟨AL2, D2, F2, heq, hlA, hrows, hlD, hlF, hp0, hpD, hpF⟩ := ih (by omega)
    have hi : 1 + t < n := by omega
    obtain ⟨AL3, heq3, hlA3, hrows3, hpres3⟩ :=
      hilbRowIter_ok n m (1 + t) AL2 hlA hrows hi ((1 + t) - ((1 + t) - m)) le_rfl
    refine ⟨AL3, D2.set (1 + t) (1 / (2 * ((1 + t : ℕ) : ℚ) + 1)),
      F2.set (1 + t) (((1 + t : ℕ) : ℚ) + 1), ?_, hlA3, hrows3,
      by rw [List.length_set]; exact hlD, by rw [List.length_set]; exact hlF, ?_, ?_, ?_⟩
    · have hc : (1 : ℤ) + (t : ℤ) = (((1 + t : ℕ)) : ℤ) := by push_cast; ring
      rw [hilbIter, heq, Option.some_bind]
      simp only [hc]
      rw [vset_nat D2 (1 + t) _ (by omega), Option.some_bind,
        vset_nat F2 (1 + t) _ (by omega), Option.some_bind, heq3, Option.map_some']
    · rw [hpres3 0 (by omega)]
      exact hp0
    · rw [vD_set_ne D2 (1 + t) 0 _ (by omega)]
      exact hpD
    · rw [vD_set_ne F2 (1 + t) 0 _ (by omega)]
      exact hpF

/-!  ## Evaluation helpers -/

theorem initStore_pos (a b : ℤ) (ha : 0 ≤ a) (hb : 0 ≤ b) :
    initStore a b = some
      { n := a.toNat, m := b.toNat,
        matrixAL := List.replicate a.toNat (List.replicate b.toNat 0),
        diagD := List.replicate a.toNat 0,
        vectorF := List.replicate a.toNat 0 } := by
  unfold initStore
  rw [if_pos ⟨ha, hb⟩]

theorem vD_replicate_zero (n i : ℕ) : vD (List.replicate n (0 : ℚ)) i = 0 := by
  rcases Nat.lt_or_ge i n with h | h
  · simp [vD, List.getD_eq_getElem?_getD, List.getElem?_replicate, h]
  · have h2 : (List.replicate n (0 : ℚ)).length ≤ i := by simpa using h
    simp [vD, List.getD_eq_getElem?_getD, List.getElem?_eq_none h2]

theorem rowD_replicate (n m r : ℕ) (h : r < n) :
    (List.replicate n (List.replicate m (0 : ℚ))).getD r [] = List.replicate m 0 := by
  simp [List.getD_eq_getElem?_getD, List.getElem?_replicate, h]

/-!  ## Claims -/

/-- Claim C1 (code evaluated at the failing input): on a banded store with
`n = 3`, `m = 1` and nonzero pivots, the decomposition's inner correction
sum (`sumL`) reads band slot `m - j + k = -1` of row `2` — outside the
row's `m` storage slots — instead of the finalized entries the recurrence
prescribes, so the checked model aborts (`none`).  The claim's recurrence
(with out-of-band entries read as `0`) is the clear intent; the code's
cumulative `indexIK += k`, `indexJK += k` indexing is a slip. -/
theorem c1_decomposition_reads_out_of_band :
    WF bandStore31 ∧ bandStore31.m < bandStore31.n ∧
      performLDLtDecomposition bandStore31 = none := by
  refine ⟨by decide, by decide, by with_unfolding_all rfl⟩

/-- Claim C2 (counterexample): for the store with `n = 1`, `m = 0`,
`A(0,0) = 0`, the decomposition produces the zero pivot `D(0,0) = 0` and
completes normally (`some`), and the diagonal substitution also completes
(`some`), dividing `f(0) = 5` by the zero pivot with no error surfaced
(in the model's exact arithmetic `5 / 0 = 0`; the C++ `float` code
silently produces `inf`).  An explicit failure would be `none`. -/
theorem c2_counterexample :
    performLDLtDecomposition zeroPivotStore = some zeroPivotStore ∧
      vD zeroPivotStore.diagD 0 = 0 ∧
      solveDiagonalSubstitution zeroPivotStore =
        some { zeroPivotStore with vectorF := [0] } := by
  refine ⟨by with_unfolding_all rfl, by decide, by with_unfolding_all rfl⟩

/-- Claim C2 (amended): the code performs no zero-pivot check:
`solveDiagonalSubstitution` always completes on a well-formed store,
computing `F[i] / D[i]` entrywise with no error reported even when
`D[i] = 0` (the division by a zero pivot is silent). -/
theorem c2_no_pivot_check (s : SLAUStore) (h : WF s) :
    ∃ s2, solveDiagonalSubstitution s = some s2 ∧
      ∀ i, i < s.n → vD s2.vectorF i = vD s.vectorF i / vD s.diagD i := by
  obtain ⟨hA, hrow, hD, hF⟩ := h
  obtain ⟨F, heq, _, _, hchar⟩ := diagIter_ok s.n s.diagD s.vectorF hD hF s.n le_rfl
  exact ⟨{ s with vectorF := F },
    by rw [solveDiagonalSubstitution, heq, Option.map_some'], hchar⟩

/-- Claim C2 (witness): the amended statement applied to the zero-pivot
store. -/
theorem c2_witness : WF zeroPivotStore ∧
    ∃ s2, solveDiagonalSubstitution zeroPivotStore = some s2 ∧
      ∀ i, i < zeroPivotStore.n →
        vD s2.vectorF i = vD zeroPivotStore.vectorF i / vD zeroPivotStore.diagD i :=
  ⟨by decide, c2_no_pivot_check zeroPivotStore (by decide)⟩

/-- Claim C3 (counterexample): the in-place three-phase solve of
`SLAUSolverLDLT` overwrites `vectorF`: on the store `n = 1`, `m = 0`,
`D = (2)`, `f = (4)` the solve returns the store with `vectorF = (2)`,
and the original `f = (4)` is gone. -/
theorem c3_counterexample :
    solveLinearSystem tinyStore = some { tinyStore with vectorF := [2] } ∧
      tinyStore.vectorF = [4] ∧ ([2] : Vec) ≠ [4] := by
  refine ⟨by with_unfolding_all rfl, by decide, by decide⟩

/-- Claim C3 (amended): the buffered variant `LDLT::solveLinearSystem`
(LDLT.cpp) leaves the right-hand side `vectorF` unchanged: it writes only
the separate buffers `y`, `z`, `X`. -/
theorem c3_buffered_solve_preserves_f (st st2 : LDLTState) (h : WFL st)
    (he : LDLT.solveLinearSystem st = some st2) : st2.vectorF = st.vectorF := by
  obtain ⟨y, z, X, heq, _⟩ := ldltSolve_ok st h
  rw [heq] at he
  cases he
  rfl

/-- Claim C3 (witness): the amended statement applied to a concrete
decomposed system. -/
theorem c3_witness : WFL ldltState2 ∧
    LDLT.solveLinearSystem ldltState2 = some ldltSolved2 ∧
    ldltSolved2.vectorF = ldltState2.vectorF :=
  ⟨by decide, by with_unfolding_all rfl,
    c3_buffered_solve_preserves_f ldltState2 ldltSolved2 (by decide)
      (by with_unfolding_all rfl)⟩

/-- Claim C4 (counterexample): on a well-formed banded store with
`0 ≤ m < n` (`n = 4`, `m = 1`), the decomposition reads band slot `-1`
(outside `[0, m)`), so the claim that every band access of the
decomposition stays inside the row's `m` storage slots is false; the
checked model aborts (`none`). -/
theorem c4_counterexample :
    WF bandStore41 ∧ bandStore41.m < bandStore41.n ∧
      performLDLtDecomposition bandStore41 = none := by
  refine ⟨by decide, by decide, by with_unfolding_all rfl⟩

/-- Claim C4 (amended): for the three substitution phases, the
reconstruction and the banded multiply, every band access stays inside
`[0, m)` (they all complete on any well-formed store), and every logical
entry `(i, j)` with `|i - j| > m` yields exactly `0` in the reconstruction
without the band array being read; the decomposition however violates the
containment (see the counterexample). -/
theorem c4_band_access_containment (s : SLAUStore) (h : WF s) :
    (∃ s2, solveLinearSystem s = some s2) ∧
      (∀ i j, i < s.n → j < s.n → (restoredEntry s i j).isSome = true) ∧
      (∀ i j, i < s.n → j < s.n → (s.m < i - j ∨ s.m < j - i) →
        restoredEntry s i j = some 0) ∧
      (∀ i, i < s.n → (multiplyEntry s i).isSome = true) := by
  refine ⟨?_, ?_, ?_, ?_⟩
  · obtain ⟨F1, F2, F3, _, _, _, h4, _⟩ := solveLinearSystem_ok s h
    exact ⟨_, h4⟩
  · intro i j hi hj
    rw [restoredEntry_ok s h i j hi hj]
    rfl
  · intro i j hi hj hband
    rw [restoredEntry_ok s h i j hi hj, if_neg (by omega),
      if_neg (fun hc => absurd hc.2 (by omega)),
      if_neg (fun hc => absurd hc.2 (by omega))]
  · intro i hi
    unfold multiplyEntry
    rw [mulRowIter_ok s h i hi s.n le_rfl]
    rfl

/-- Claim C4 (witness): the amended statement applied to a concrete
banded store. -/
theorem c4_witness : WF bandStore2 ∧
    ((∃ s2, solveLinearSystem bandStore2 = some s2) ∧
      (∀ i j, i < bandStore2.n → j < bandStore2.n →
        (restoredEntry bandStore2 i j).isSome = true) ∧
      (∀ i j, i < bandStore2.n → j < bandStore2.n →
        (bandStore2.m < i - j ∨ bandStore2.m < j - i) →
        restoredEntry bandStore2 i j = some 0) ∧
      (∀ i, i < bandStore2.n → (multiplyEntry bandStore2 i).isSome = true)) :=
  ⟨by decide, c4_band_access_containment bandStore2 (by decide)⟩

/-- Claim C6 (counterexample): on the spec's concrete scenario store the
decomposition does not yield the claimed values `D = (4, 4, 4.5)`,
`L(1,0) = 0.5`, `L(2,1) = 0.75`: it aborts on an out-of-band read.
(Moreover the recurrence itself gives `D(2,2) = 6 − 0.75² · 4 = 3.75`,
not `4.5`.) -/
theorem c6_counterexample :
    ¬ ∃ s2, performLDLtDecomposition scenarioStore = some s2 ∧
      vD s2.diagD 0 = 4 ∧ vD s2.diagD 1 = 4 ∧ vD s2.diagD 2 = 9/2 ∧
      alD s2.matrixAL 1 0 = 1/2 ∧ alD s2.matrixAL 2 0 = 3/4 := by
  rintro ⟨s2, h, -⟩
  rw [show performLDLtDecomposition scenarioStore = none from by with_unfolding_all rfl]
    at h
  exact Option.noConfusion h

/-- Claim C6 (amended): running the decomposition on the scenario store
does not complete cleanly: at `i = 1`, `j = 2` the correction sum reads
band slot `-1` of row 2 (undefined behaviour in the C++ source), so no
well-defined values are produced at all. -/
theorem c6_scenario_decomposition_aborts :
    performLDLtDecomposition scenarioStore = none := by
  with_unfolding_all rfl

/-- Claim C7 (counterexample): constructing with `n = 2`, `m = 3`
(so `m ≥ n`) does not fail: `initialize` performs no dimension check and
produces a zero-filled store with these invalid dimensions. -/
theorem c7_counterexample :
    initStore 2 3 = some
      { n := 2, m := 3, matrixAL := [[0, 0, 0], [0, 0, 0]],
        diagD := [0, 0], vectorF := [0, 0] } := by
  with_unfolding_all rfl

/-- Claim C7 (amended): `initialize` performs no dimension validation:
every `n ≥ 0`, `m ≥ 0` — including `n = 0` and `m ≥ n` — yields a
zero-filled store without any error before computation; only a negative
size fails, and that failure comes from the container allocation itself,
not from an explicit dimension check. -/
theorem c7_no_dimension_check (a b : ℤ) (ha : 0 ≤ a) (hb : 0 ≤ b) :
    initStore a b = some
      { n := a.toNat, m := b.toNat,
        matrixAL := List.replicate a.toNat (List.replicate b.toNat 0),
        diagD := List.replicate a.toNat 0,
        vectorF := List.replicate a.toNat 0 } :=
  initStore_pos a b ha hb

/-- Claim C7 (witness): the amended statement applied at `n = 0`, `m = 5`
(a dimension the claim says must be rejected, accepted instead). -/
theorem c7_witness : (0 : ℤ) ≤ 0 ∧ (0 : ℤ) ≤ 5 ∧
    initStore 0 5 = some
      { n := 0, m := 5, matrixAL := [], diagD := [], vectorF := [] } := by
  refine ⟨by decide, by decide, ?_⟩
  rw [c7_no_dimension_check 0 5 (by decide) (by decide)]
  rfl

/-- Claim C9: for every well-formed store and every row `i < n`, the banded
matrix-vector product of `printMultiplyMatrixToVector` equals the dot
product of row `i` of the dense reconstruction (`printRestoredMatrix`)
with the stored vector: the band-only multiply and the dense
reconstruction agree. -/
theorem c9_multiply_matches_reconstruction (s : SLAUStore) (h : WF s)
    (i : ℕ) (hi : i < s.n) :
    multiplyEntry s i = some (∑ j in Finset.range s.n,
      ((restoredEntry s i j).getD 0) * vD s.vectorF j) := by
  unfold multiplyEntry
  rw [mulRowIter_ok s h i hi s.n le_rfl]
  congr 1
  have hdi : restoredEntry s i i = some (vD s.diagD i) := by
    rw [restoredEntry_ok s h i i hi hi, if_pos rfl]
  have hsplit : ∀ j, ((restoredEntry s i j).getD 0) * vD s.vectorF j =
      (if j = i then ((restoredEntry s i j).getD 0) * vD s.vectorF j else 0) +
      (if j = i then 0 else ((restoredEntry s i j).getD 0) * vD s.vectorF j) := by
    intro j
    by_cases hji : j = i
    · rw [if_pos hji, if_pos hji, add_zero]
    · rw [if_neg hji, if_neg hji, zero_add]
  have hsum : ∑ j in Finset.range s.n,
      (if j = i then ((restoredEntry s i j).getD 0) * vD s.vectorF j else 0) =
      vD s.diagD i * vD s.vectorF i := by
    rw [Finset.sum_ite_eq' (Finset.range s.n) i
      (fun j => ((restoredEntry s i j).getD 0) * vD s.vectorF j),
      if_pos (Finset.mem_range.mpr hi), hdi]
    rfl
  calc vD s.diagD i * vD s.vectorF i + ∑ j in Finset.range s.n,
        (if j = i then 0 else ((restoredEntry s i j).getD 0) * vD s.vectorF j)
      = (∑ j in Finset.range s.n,
          (if j = i then ((restoredEntry s i j).getD 0) * vD s.vectorF j else 0)) +
        ∑ j in Finset.range s.n,
          (if j = i then 0 else ((restoredEntry s i j).getD 0) * vD s.vectorF j) := by
        rw [hsum]
    _ = ∑ j in Finset.range s.n, ((restoredEntry s i j).getD 0) * vD s.vectorF j := by
        rw [← Finset.sum_add_distrib]
        exact Finset.sum_congr rfl fun j _ => (hsplit j).symm

/-- Claim C9 (witness): the statement applied to a concrete store and row. -/
theorem c9_witness : WF bandStore2 ∧ 0 < bandStore2.n ∧
    multiplyEntry bandStore2 0 = some (∑ j in Finset.range bandStore2.n,
      ((restoredEntry bandStore2 0 j).getD 0) * vD bandStore2.vectorF j) :=
  ⟨by decide, by decide,
    c9_multiply_matches_reconstruction bandStore2 (by decide) 0 (by decide)⟩

/-- Claim C10: after `initialize(n, m)` (for any `n ≥ 1`, `m ≥ 0`) followed
by `HilbertBandMatrix()`, index 0 was never written: `diagD[0] = 0`,
`vectorF[0] = 0` and band row 0 is still all zeros (the fill loops start
at `i = 1`), so the generated system has the zero leading pivot
`A(0,0) = 0`. -/
theorem c10_hilbert_never_writes_index_zero (a b : ℤ) (ha : 1 ≤ a) (hb : 0 ≤ b) :
    ∃ s2, (initStore a b).bind HilbertBandMatrix = some s2 ∧
      vD s2.diagD 0 = 0 ∧ vD s2.vectorF 0 = 0 ∧
      s2.matrixAL.getD 0 [] = List.replicate b.toNat 0 := by
  rw [initStore_pos a b (by omega) hb, Option.some_bind]
  have hrow : ∀ r, r < a.toNat →
      ((List.replicate a.toNat (List.replicate b.toNat (0 : ℚ))).getD r []).length
        = b.toNat := by
    intro r hr
    rw [rowD_replicate a.toNat b.toNat r hr]
    exact List.length_replicate b.toNat 0
  obtain ⟨AL2, D2, F2, heq, _, _, _, _, hp0, hpD, hpF⟩ :=
    hilbIter_ok a.toNat b.toNat
      (List.replicate a.toNat (List.replicate b.toNat 0))
      (List.replicate a.toNat 0) (List.replicate a.toNat 0)
      (List.length_replicate a.toNat _) hrow
      (List.length_replicate a.toNat _) (List.length_replicate a.toNat _)
      (a.toNat - 1) le_rfl
  refine ⟨{ n := a.toNat, m := b.toNat, matrixAL := AL2, diagD := D2,
            vectorF := F2 }, ?_, ?_, ?_, ?_⟩
  · rw [HilbertBandMatrix]
    show (hilbIter a.toNat b.toNat _ _ _ (a.toNat - 1)).map _ = _
    rw [heq, Option.map_some']
  · show vD D2 0 = 0
    rw [hpD, vD_replicate_zero]
  · show vD F2 0 = 0
    rw [hpF, vD_replicate_zero]
  · show AL2.getD 0 [] = _
    rw [hp0, rowD_replicate a.toNat b.toNat 0 (by omega)]

/-- Claim C10 (witness): the statement applied at `n = 2`, `m = 1`. -/
theorem c10_witness : (1 : ℤ) ≤ 2 ∧ (0 : ℤ) ≤ 1 ∧
    ∃ s2, (initStore 2 1).bind HilbertBandMatrix = some s2 ∧
      vD s2.diagD 0 = 0 ∧ vD s2.vectorF 0 = 0 ∧
      s2.matrixAL.getD 0 [] = List.replicate (1 : ℤ).toNat 0 :=
  ⟨by decide, by decide, c10_hilbert_never_writes_index_zero 2 1 (by decide) (by decide)⟩

/-- Claim C5: for every store produced by the decomposition whose diagonal
entries are all nonzero, the vector `x` produced by the three sequential
in-place substitution phases applied to the right-hand side `f` satisfies
`(L·D·Lᵗ)·x = f` exactly in rational arithmetic, where `L` and `D` are the
unit-lower-triangular and diagonal factors read from the decomposed store
(`matLDLt`). -/
theorem c5_solve_satisfies_ldlt (s0 s s2 : SLAUStore) (h0 : WF s0)
    (hdec : performLDLtDecomposition s0 = some s)
    (hnz : ∀ i, i < s.n → vD s.diagD i ≠ 0)
    (hs : solveLinearSystem s = some s2) :
    ∀ i, i < s.n → ∑ j in Finset.range s.n, matLDLt s i j * vD s2.vectorF j
      = vD s.vectorF i := by
  obtain ⟨hWF, -, -, -⟩ := decomp_WF s0 s h0 hdec
  obtain ⟨F1, F2, F3, -, -, -, hsolve, hl1, hl2, hl3, hc1, hc2, hc3⟩ :=
    solveLinearSystem_ok s hWF
  rw [hs] at hsolve
  injection hsolve with hs2
  subst hs2
  intro i hi
  calc ∑ j in Finset.range s.n, matLDLt s i j * vD F3 j
      = ∑ j in Finset.range s.n, ∑ k in Finset.range s.n,
          matL s i k * vD s.diagD k * matL s j k * vD F3 j := by
        refine Finset.sum_congr rfl fun j _ => ?_
        rw [matLDLt, Finset.sum_mul]
    _ = ∑ k in Finset.range s.n, ∑ j in Finset.range s.n,
          matL s i k * vD s.diagD k * matL s j k * vD F3 j := Finset.sum_comm
    _ = ∑ k in Finset.range s.n, matL s i k * vD s.diagD k *
          ∑ j in Finset.range s.n, matL s j k * vD F3 j := by
        refine Finset.sum_congr rfl fun k _ => ?_
        rw [Finset.mul_sum]
        exact Finset.sum_congr rfl fun j _ => by ring
    _ = ∑ k in Finset.range s.n, matL s i k * vD s.diagD k * vD F2 k := by
        refine Finset.sum_congr rfl fun k hk => ?_
        have hkn : k < s.n := Finset.mem_range.mp hk
        rw [sum_matL_col s (fun j => vD F3 j) k hkn, hc3 k hkn]
        ring
    _ = ∑ k in Finset.range s.n, matL s i k * vD F1 k := by
        refine Finset.sum_congr rfl fun k hk => ?_
        have hkn : k < s.n := Finset.mem_range.mp hk
        have hd := hnz k hkn
        rw [hc2 k hkn]
        field_simp
        ring
    _ = vD F1 i + ∑ k in Finset.Ico (i - s.m) i,
          alD s.matrixAL i ((s.m : ℤ) - (i : ℤ) + (k : ℤ)) * vD F1 k :=
        sum_matL_row s (fun k => vD F1 k) i hi
    _ = vD s.vectorF i := by
        rw [hc1 i hi]
        ring

/-- Claim C5 (witness): the statement applied to the decomposition of
`A = [[4, 2], [2, 5]]` with `f = (4, 2)` (solution `x = (1, 0)`). -/
theorem c5_witness : WF bandStore2 ∧
    performLDLtDecomposition bandStore2 = some decompStore2 ∧
    (∀ i, i < decompStore2.n → vD decompStore2.diagD i ≠ 0) ∧
    solveLinearSystem decompStore2 = some slauSolved2 ∧
    (∀ i, i < decompStore2.n → ∑ j in Finset.range decompStore2.n,
      matLDLt decompStore2 i j * vD slauSolved2.vectorF j
        = vD decompStore2.vectorF i) :=
  ⟨by decide, by with_unfolding_all rfl, by decide, by with_unfolding_all rfl,
    c5_solve_satisfies_ldlt bandStore2 decompStore2 slauSolved2 (by decide)
      (by with_unfolding_all rfl) (by decide) (by with_unfolding_all rfl)⟩

/-- Claim C8: on the same decomposed store with nonzero diagonal and the
same right-hand side, the destructive in-place variant
(`SLAUSolverLDLT::solveLinearSystem`, which overwrites `vectorF` through
all three phases) and the buffered variant (`LDLT::solveLinearSystem`,
which writes `y`, `z` and `X`) compute the same values: the final contents
of the overwritten vector equal the buffered variant's `X` entrywise. -/
theorem c8_inplace_equals_buffered (s s2 : SLAUStore) (t t2 : LDLTState)
    (h : WF s) (hL : WFL t)
    (hn : t.n = s.n) (hk : t.k = s.m) (hAL : t.matrixAL = s.matrixAL)
    (hD : t.diagD = s.diagD) (hF : t.vectorF = s.vectorF)
    (_hnz : ∀ i, i < s.n → vD s.diagD i ≠ 0)
    (hs : solveLinearSystem s = some s2)
    (ht : LDLT.solveLinearSystem t = some t2) :
    ∀ i, i < s.n → vD s2.vectorF i = vD t2.X i := by
  obtain ⟨F1, F2, F3, -, -, -, hsolve, hl1, hl2, hl3, hc1, hc2, hc3⟩ :=
    solveLinearSystem_ok s h
  obtain ⟨y, z, X, heq, hly, hlz, hlX, hy, hz, hX⟩ := ldltSolve_ok t hL
  rw [hs] at hsolve
  injection hsolve with hs2
  subst hs2
  rw [heq] at ht
  injection ht with ht2
  subst ht2
  simp only [hn, hk, hAL, hD, hF] at hy hz hX
  have yF1 : ∀ i, i < s.n → vD F1 i = vD y i :=
    ascRec_unique s.n s.m s.matrixAL (fun i => vD s.vectorF i) (vD F1) (vD y) hc1 hy
  have zF2 : ∀ i, i < s.n → vD F2 i = vD z i := by
    intro i hi
    rw [hc2 i hi, hz i hi, yF1 i hi]
  have hX2 : ∀ i, i < s.n → vD X i = vD F2 i -
      ∑ j in Finset.Ioc i (min (s.n - 1) (i + s.m)),
        alD s.matrixAL j ((s.m : ℤ) - (j : ℤ) + (i : ℤ)) * vD X j := by
    intro i hi
    rw [hX i hi, ← zF2 i hi]
  exact descRec_unique s.n s.m s.matrixAL (fun i => vD F2 i) (vD F3) (vD X) hc3 hX2

/-- Claim C8 (witness): the statement applied to the decomposed system of
`A = [[4, 2], [2, 5]]`, `f = (4, 2)`: both variants produce `x = (1, 0)`. -/
theorem c8_witness : WF decompStore2 ∧ WFL ldltState2 ∧
    solveLinearSystem decompStore2 = some slauSolved2 ∧
    LDLT.solveLinearSystem ldltState2 = some ldltSolved2 ∧
    (∀ i, i < decompStore2.n → vD slauSolved2.vectorF i = vD ldltSolved2.X i) :=
  ⟨by decide, by decide, by with_unfolding_all rfl, by with_unfolding_all rfl,
    c8_inplace_equals_buffered decompStore2 slauSolved2 ldltState2 ldltSolved2
      (by decide) (by decide) rfl rfl rfl rfl rfl (by decide)
      (by with_unfolding_all rfl) (by with_unfolding_all rfl)⟩
